import Mathlib

/-!
Verification of the core logic of publish-preview-packages.

Shallow embedding of:
- src/versions.ts  (hashDirectory, sanitizeBranchName, computeVersions)
- src/cleanup.ts   (areAllBranchesDeleted, getPreviewVersions and the
  per-package retention decision inside cleanupOldVersions)
- src/publish.ts   (versionExists, addDistTag, publishPackage and the
  per-package loop body of publishPackages)

Strings are modelled at Unicode code-point granularity (Lean Char).
JavaScript regular-expression semantics are modelled faithfully at that
granularity; in particular the dot in a regex does not match the line
terminators U+000A, U+000D, U+2028, U+2029, and the dollar anchor without
the multiline flag matches only at the end of the input.

Timestamps are milliseconds since the epoch as produced by Date.getTime(),
modelled as Int. The code sorts deletion candidates by the floating-point
day count ageMs / 86400000; since the comparator divides both sides by the
same positive constant and the quotients of distinct integer millisecond
counts in the representable range never collide as doubles (one millisecond
is about 1.16e-8 days, far above one ulp at any realistic magnitude), that
order coincides with the order of the integer age in milliseconds, which is
what the model sorts by.

The SHA-256 digest, the file system and the npm registry are external
collaborators (spec section 6); they enter the model as explicit parameters
(an abstract digest function over the exact update stream the code feeds
it, a lookup from paths to directory listings, and a registry state).
-/

namespace PublishPreview

/-! ### JavaScript string and regex primitives, at code-point granularity -/

/-- The code points that the regex dot does not match in JavaScript
without the dotAll flag: line feed, carriage return, U+2028, U+2029. -/
def isLineTerminator (c : Char) : Bool :=
  c = Char.ofNat 10 ∨ c = Char.ofNat 13 ∨ c = Char.ofNat 0x2028 ∨ c = Char.ofNat 0x2029

/-- JavaScript replace of the anchored pattern: a hyphen, then dot-star,
then the end-of-input anchor, with the empty string. A match starts at the
leftmost hyphen that is followed by no line terminator (dot cannot cross a
line terminator and the dollar anchor only matches at the end of input);
everything from that hyphen onward is removed. If no hyphen qualifies the
string is unchanged. -/
def replaceFirstHyphenToEnd : List Char → List Char
  | [] => []
  | c :: rest =>
    if c = '-' ∧ rest.all (fun d => !isLineTerminator d) then []
    else c :: replaceFirstHyphenToEnd rest

/-- The literal pattern stripped first by computeVersions, as a code-point
list. -/
def inDevelopmentMarker : List Char := ("-in-development").toList

/-- JavaScript replace of the anchored literal pattern branch of
computeVersions: strip a literal trailing in-development marker when the
input ends with it, otherwise leave the input unchanged. -/
def replaceInDevelopmentSuffix (l : List Char) : List Char :=
  if inDevelopmentMarker.isSuffixOf l then l.take (l.length - inDevelopmentMarker.length)
  else l

/-- Base version extraction of computeVersions (src/versions.ts line 79):
first strip a trailing in-development marker, then apply the
first-hyphen-to-end replacement. -/
def baseVersionOf (version : String) : String :=
  String.mk (replaceFirstHyphenToEnd (replaceInDevelopmentSuffix version.toList))

/-! ### src/versions.ts -/

/-- The character class kept by sanitizeBranchName: ASCII letters, digits,
underscore and hyphen. -/
def allowedTagChar (c : Char) : Bool :=
  ('a' ≤ c ∧ c ≤ 'z') ∨ ('A' ≤ c ∧ c ≤ 'Z') ∨ ('0' ≤ c ∧ c ≤ '9') ∨ c = '_' ∨ c = '-'

/-- sanitizeBranchName (src/versions.ts lines 55-57): global replacement of
every code point outside the allowed class with a hyphen. -/
def sanitizeBranchName (branch : String) : String :=
  String.mk (branch.toList.map (fun c => if allowedTagChar c then c else '-'))

/-- One call to hash.update inside hashDirectory: either the relative path
string or the raw content bytes of a file. The digest collaborator consumes
the exact sequence of updates the code performs. -/
inductive HashUpdate where
  | str : String → HashUpdate
  | bytes : List Nat → HashUpdate
deriving DecidableEq

/-- A directory tree as walkDir observes it: the root path, the full paths
of the regular files in file-system enumeration order, and the bytes of
each file. -/
structure DistDir where
  dirPath : String
  files : List String
  contents : String → List Nat

/-- file.substring of hashDirectory: the relative path obtained by dropping
the root path plus the separator from the front of a full path. -/
def relativePathOf (dirPath file : String) : String :=
  String.mk (file.toList.drop (dirPath.toList.length + 1))

/-- The update stream hashDirectory feeds the digest: the full-path list is
sorted lexicographically, then each file contributes its relative path
followed by its content bytes. The sort models the engine's stable
comparator sort on strings. -/
def hashStream (d : DistDir) : List HashUpdate :=
  (d.files.insertionSort (fun a b => a ≤ b)).foldl
    (fun acc file =>
      acc ++ [HashUpdate.str (relativePathOf d.dirPath file), HashUpdate.bytes (d.contents file)])
    []

/-- hashDirectory (src/versions.ts lines 19-50): sort the full-path list,
feed the digest each file's relative path then its content bytes, and keep
the first 12 characters of the hex digest. The digest function is the
SHA-256 collaborator, abstract over the update stream. -/
def hashDirectory (digest : List HashUpdate → String) (d : DistDir) : String :=
  String.mk ((digest (hashStream d)).toList.take 12)

/-- A discovered package as computeVersions receives it. -/
structure PackageInfo where
  name : String
  path : String
  version : String
deriving DecidableEq

/-- The record computeVersions produces per package. -/
structure VersionInfo where
  name : String
  path : String
  currentVersion : String
  previewVersion : String
  contentHash : String
  branchTag : String
  distPath : String
deriving DecidableEq

/-- The loop body of computeVersions over the package list: a missing dist
folder throws, aborting the whole loop (the thrown error propagates out of
computeVersions). The file system is the lookup from a path to the
directory found there, none when stat fails. -/
def computeVersionsLoop (digest : List HashUpdate → String) (fs : String → Option DistDir)
    (sanitizedBranch : String) : List PackageInfo → Except String (List VersionInfo)
  | [] => Except.ok []
  | pkg :: rest =>
    let distPath := pkg.path ++ "/dist"
    match fs distPath with
    | none => Except.error ("Package " ++ pkg.name ++ " has no dist folder at " ++ distPath)
    | some d =>
      let contentHash := hashDirectory digest d
      let baseVersion := baseVersionOf pkg.version
      let previewVersion := baseVersion ++ "-preview." ++ contentHash
      let branchTag := "branch-" ++ sanitizedBranch
      (computeVersionsLoop digest fs sanitizedBranch rest).map
        (fun infos =>
          ⟨pkg.name, pkg.path, pkg.version, previewVersion, contentHash, branchTag, distPath⟩
            :: infos)

/-- computeVersions (src/versions.ts lines 62-95). -/
def computeVersions (digest : List HashUpdate → String) (fs : String → Option DistDir)
    (packages : List PackageInfo) (branchName : String) : Except String (List VersionInfo) :=
  computeVersionsLoop digest fs (sanitizeBranchName branchName) packages

/-! ### src/cleanup.ts -/

/-- A published preview version as getPreviewVersions reports it:
the version string, the dist-tags pointing at it, and the publish
timestamp in milliseconds. -/
structure PreviewVersion where
  version : String
  tags : List String
  publishedAt : Int
deriving DecidableEq

/-- Milliseconds per day, the constant 24 * 60 * 60 * 1000 of the code. -/
def dayMs : Int := 24 * 60 * 60 * 1000

/-- The tag text of a branch tag, as a code-point list. -/
def branchTagMarker : List Char := ("branch-").toList

/-- tag.replace of the anchored branch marker inside areAllBranchesDeleted:
drop the leading marker when present, reversing the sanitization prefix. -/
def branchNameOfTag (tag : String) : String :=
  if branchTagMarker.isPrefixOf tag.toList then String.mk (tag.toList.drop branchTagMarker.length)
  else tag

/-- branchName.replace of all hyphens with slashes inside
areAllBranchesDeleted: the lossy reverse of sanitization. -/
def restoreSlashes (s : String) : String :=
  String.mk (s.toList.map (fun c => if c = '-' then '/' else c))

/-- areAllBranchesDeleted (src/cleanup.ts lines 154-173): a record with no
branch tags is orphaned and counts as all-deleted; otherwise every branch
tag must name a branch that is live neither literally nor with hyphens
restored to slashes. -/
def areAllBranchesDeleted (tags : List String) (existingBranches : List String) : Bool :=
  let branchTags := tags.filter (fun tag => branchTagMarker.isPrefixOf tag.toList)
  if branchTags.isEmpty then true
  else
    branchTags.all (fun tag =>
      let branchName := branchNameOfTag tag
      !(existingBranches.contains branchName
        ∨ existingBranches.contains (restoreSlashes branchName)))

/-- The substring test v.includes of getPreviewVersions: some tail of the
version starts with the preview separator. -/
def isPreviewVersionStr (v : String) : Bool :=
  v.toList.tails.any (fun t => ("-preview.").toList.isPrefixOf t)

/-- getPreviewVersions (src/cleanup.ts lines 94-100), pure core: from the
registry listing (version list, dist-tag map as tag-version pairs in entry
order, publish-time map in milliseconds), keep only versions containing the
preview separator, attach each one's tags in dist-tag entry order, and fall
back to the current time when the time map has no entry. -/
def getPreviewVersions (versions : List String) (distTags : List (String × String))
    (time : List (String × Int)) (fallbackNow : Int) : List PreviewVersion :=
  (versions.filter (fun v => isPreviewVersionStr v)).map
    (fun v =>
      ⟨v, (distTags.filter (fun p => p.2 = v)).map (fun p => p.1),
        ((time.find? (fun p => p.1 = v)).map (fun p => p.2)).getD fallbackNow⟩)

/-- The candidate filter inside cleanupOldVersions (src/cleanup.ts lines
206-223): keep records at least minAgeDays old whose branches are all
deleted. The code skips a record when ageMs is strictly below minAgeMs and
keeps it otherwise, which is the non-strict comparison used here. -/
def deletionCandidates (previewVersions : List PreviewVersion) (existingBranches : List String)
    (minAgeDays now : Int) : List PreviewVersion :=
  previewVersions.filter (fun v =>
    decide (minAgeDays * dayMs ≤ now - v.publishedAt)
      && areAllBranchesDeleted v.tags existingBranches)

/-- The candidate sort of cleanupOldVersions (src/cleanup.ts line 226):
oldest first, that is descending age. Sorting is by the integer age in
milliseconds, which orders exactly as the floating-point day count the
code compares, and the stable insertion sort models the engine's stable
comparator sort. -/
def sortByAgeDescending (candidates : List PreviewVersion) (now : Int) : List PreviewVersion :=
  candidates.insertionSort (fun a b => now - b.publishedAt ≤ now - a.publishedAt)

/-- The per-package retention decision of cleanupOldVersions
(src/cleanup.ts lines 200-229): nothing if the preview count is under the
ceiling; otherwise filter candidates, sort them oldest first, and take
enough to bring the count one under the ceiling, clamped at zero. -/
def cleanupPlan (previewVersions : List PreviewVersion) (existingBranches : List String)
    (maxVersions minAgeDays now : Int) : List PreviewVersion :=
  if (previewVersions.length : Int) < maxVersions then []
  else
    (sortByAgeDescending (deletionCandidates previewVersions existingBranches minAgeDays now)
        now).take
      (max ((previewVersions.length : Int) - maxVersions + 1) 0).toNat

/-! ### src/publish.ts -/

/-- The npm registry state for one package name: the published version
strings and the dist-tag map as tag-version pairs. -/
structure NpmRegistry where
  versions : List String
  distTags : List (String × String)
deriving DecidableEq

/-- versionExists (src/publish.ts lines 23-52): the registry existence
check. A transient check failure makes the code answer false as well, which
the interference hook of processPackage covers (the version then appears
created concurrently at publish time). -/
def versionExists (reg : NpmRegistry) (version : String) : Bool :=
  reg.versions.contains version

/-- The registry effect of npm dist-tag add: point the tag at the version,
replacing any previous binding of that tag. -/
def setDistTag (reg : NpmRegistry) (tag version : String) : NpmRegistry :=
  ⟨reg.versions, reg.distTags.filter (fun p => !(p.1 = tag : Bool)) ++ [(tag, version)]⟩

/-- Which external commands fail in a given run: a non-conflict npm publish
failure, and an npm dist-tag add failure. -/
structure PublishEnv where
  publishFails : Bool
  addDistTagFails : Bool
deriving DecidableEq

/-- addDistTag (src/publish.ts lines 57-75): throws on command failure,
otherwise applies the tag. -/
def addDistTag (reg : NpmRegistry) (env : PublishEnv) (version tag : String) :
    Except String NpmRegistry :=
  if env.addDistTagFails then Except.error ("Failed to add dist-tag") else
  Except.ok (setDistTag reg tag version)

/-- The registry effect of a successful npm publish with an initial tag. -/
def publishToRegistry (reg : NpmRegistry) (version tag : String) : NpmRegistry :=
  setDistTag ⟨reg.versions ++ [version], reg.distTags⟩ tag version

deriving instance DecidableEq for Except

/-- The observable outcome of one publishPackage call: the version field
left in package.json on disk, the registry state, and the normal return or
thrown error. -/
structure PublishOutcome where
  manifestVersion : String
  registry : NpmRegistry
  result : Except String Unit
deriving DecidableEq

/-- publishPackage (src/publish.ts lines 80-138). The manifest version
field is overwritten with the preview version, then npm publish runs:
a conflict (the version already exists at publish time) restores the
original version and adds the dist-tag to the existing version; success
publishes and then restores; any other publish failure enters the restore
block that re-reads the file it has just overwritten and writes those same
contents back, so the preview version stays in the manifest, and the error
is rethrown. -/
def publishPackage (manifestVersion : String) (reg : NpmRegistry) (env : PublishEnv)
    (version tag : String) : PublishOutcome :=
  let originalVersion := manifestVersion
  if versionExists reg version then
    match addDistTag reg env version tag with
    | Except.ok reg2 => ⟨originalVersion, reg2, Except.ok ()⟩
    | Except.error e => ⟨originalVersion, reg, Except.error e⟩
  else if env.publishFails then
    ⟨version, reg, Except.error ("Failed to publish")⟩
  else
    ⟨originalVersion, publishToRegistry reg version tag, Except.ok ()⟩

/-- One entry of the publishPackages result list. -/
structure PublishedPackage where
  name : String
  originalName : String
  version : String
  tag : String
  isNew : Bool
deriving DecidableEq

/-- The observable outcome of one package iteration of publishPackages. -/
structure PackageRun where
  manifestVersion : String
  registry : NpmRegistry
  result : Except String PublishedPackage
deriving DecidableEq

/-- The loop body of publishPackages (src/publish.ts lines 150-178) for
one package. The interference hook applies the registry activity of
concurrent runs between the existence check and the publish call (spec
section 5); pass the identity for a quiescent registry. When the check
finds the version, the dist-tag is added and the entry reports isNew false;
otherwise publishPackage runs against the possibly changed registry and a
normal return reports isNew true. -/
def processPackage (name originalName manifestVersion previewVersion branchTag : String)
    (reg : NpmRegistry) (interfere : NpmRegistry → NpmRegistry) (env : PublishEnv) :
    PackageRun :=
  if versionExists reg previewVersion then
    match addDistTag reg env previewVersion branchTag with
    | Except.ok reg2 =>
      ⟨manifestVersion, reg2, Except.ok ⟨name, originalName, previewVersion, branchTag, false⟩⟩
    | Except.error e => ⟨manifestVersion, reg, Except.error e⟩
  else
    let reg2 := interfere reg
    let att := publishPackage manifestVersion reg2 env previewVersion branchTag
    match att.result with
    | Except.ok _ =>
      ⟨att.manifestVersion, att.registry,
        Except.ok ⟨name, originalName, previewVersion, branchTag, true⟩⟩
    | Except.error e => ⟨att.manifestVersion, att.registry, Except.error e⟩

/-! ### Helper lemmas -/

/-- The candidate filter keeps only members of the input history. -/
theorem deletionCandidates_subset (previews : List PreviewVersion) (branches : List String)
    (minAgeDays now : Int) :
    ∀ v ∈ deletionCandidates previews branches minAgeDays now, v ∈ previews := by
  intro v hv
  exact (List.mem_filter.mp hv).1

/-- Everything the retention decision selects is a filtered candidate. -/
theorem cleanupPlan_mem_candidates (previews : List PreviewVersion) (branches : List String)
    (maxVersions minAgeDays now : Int) :
    ∀ v ∈ cleanupPlan previews branches maxVersions minAgeDays now,
      v ∈ deletionCandidates previews branches minAgeDays now := by
  intro v hv
  unfold cleanupPlan at hv
  by_cases h : (previews.length : Int) < maxVersions
  · rw [if_pos h] at hv
    simp at hv
  · rw [if_neg h] at hv
    have h1 := List.Sublist.mem hv (List.take_sublist _ _)
    unfold sortByAgeDescending at h1
    exact (List.perm_insertionSort _ _).mem_iff.mp h1

/-- areAllBranchesDeleted holds exactly when every branch tag names a
branch that is live neither literally nor with hyphens restored. -/
theorem areAllBranchesDeleted_iff (tags branches : List String) :
    areAllBranchesDeleted tags branches = true ↔
      ∀ tag ∈ tags, branchTagMarker.isPrefixOf tag.toList = true →
        branchNameOfTag tag ∉ branches ∧ restoreSlashes (branchNameOfTag tag) ∉ branches := by
  have hif : ∀ (l : List String) (f : String → Bool),
      (if l.isEmpty then true else l.all f) = l.all f := by
    intro l f
    cases l <;> simp
  have hcol : areAllBranchesDeleted tags branches =
      (tags.filter (fun tag => branchTagMarker.isPrefixOf tag.toList)).all (fun tag =>
        !(branches.contains (branchNameOfTag tag)
          ∨ branches.contains (restoreSlashes (branchNameOfTag tag)))) := by
    unfold areAllBranchesDeleted
    exact hif _ _
  rw [hcol, List.all_eq_true]
  constructor
  · intro h tag htag hpref
    have h2 := h tag (List.mem_filter.mpr ⟨htag, hpref⟩)
    simpa using h2
  · intro h tag htag
    obtain ⟨hmem, hpref⟩ := List.mem_filter.mp htag
    simpa using h tag hmem hpref

/-- Folding list appends over the same list with pointwise equal
contributions gives the same result. -/
theorem foldl_append_congr {α β : Type} (g1 g2 : α → List β) (l : List α)
    (h : ∀ x ∈ l, g1 x = g2 x) (acc : List β) :
    l.foldl (fun a x => a ++ g1 x) acc = l.foldl (fun a x => a ++ g2 x) acc := by
  induction l generalizing acc with
  | nil => rfl
  | cons x xs ih =>
    simp only [List.foldl_cons]
    rw [h x (List.mem_cons_self x xs)]
    exact ih (fun y hy => h y (List.mem_cons_of_mem _ hy)) _

/-- On input with no line terminators, the first-hyphen-to-end replacement
keeps exactly the part before the first hyphen. -/
theorem replaceFirstHyphenToEnd_eq_takeWhile (l : List Char)
    (h : l.all (fun c => !isLineTerminator c) = true) :
    replaceFirstHyphenToEnd l = l.takeWhile (fun c => decide (¬ c = '-')) := by
  induction l with
  | nil => rfl
  | cons c rest ih =>
    simp only [List.all_cons, Bool.and_eq_true] at h
    rw [replaceFirstHyphenToEnd]
    by_cases hc : c = '-'
    · rw [if_pos ⟨hc, h.2⟩]
      simp [List.takeWhile_cons, hc]
    · rw [if_neg (fun hand => hc hand.1)]
      simp [List.takeWhile_cons, hc, ih h.2]

/-- Stripping the in-development marker preserves any all-characters
property. -/
theorem replaceInDevelopmentSuffix_all {p : Char → Bool} (l : List Char)
    (h : l.all p = true) : (replaceInDevelopmentSuffix l).all p = true := by
  unfold replaceInDevelopmentSuffix
  split
  · rw [List.all_eq_true] at h ⊢
    intro c hc
    exact h c ((List.take_sublist _ _).subset hc)
  · exact h

/-- Every record computeVersions emits carries the preview version built
from its own base version and content hash, and the branch tag built from
the sanitized branch. -/
theorem computeVersionsLoop_ok_mem (digest : List HashUpdate → String)
    (fs : String → Option DistDir) (sb : String) (packages : List PackageInfo)
    (infos : List VersionInfo)
    (h : computeVersionsLoop digest fs sb packages = Except.ok infos) :
    ∀ info ∈ infos,
      info.previewVersion =
        baseVersionOf info.currentVersion ++ ("-preview.") ++ info.contentHash ∧
      info.branchTag = ("branch-") ++ sb := by
  induction packages generalizing infos with
  | nil =>
    rw [computeVersionsLoop] at h
    cases h
    intro info hinfo
    cases hinfo
  | cons pkg rest ih =>
    rw [computeVersionsLoop] at h
    cases hfs : fs (pkg.path ++ ("/dist")) with
    | none =>
      rw [hfs] at h
      cases h
    | some d =>
      rw [hfs] at h
      cases hr : computeVersionsLoop digest fs sb rest with
      | error e =>
        rw [hr] at h
        cases h
      | ok infos2 =>
        rw [hr] at h
        cases h
        intro info hinfo
        rcases List.mem_cons.mp hinfo with hhead | htail
        · subst hhead
          exact ⟨rfl, rfl⟩
        · exact ih infos2 hr info htail

/-- The preview versions computeVersions reports do not depend on the
sanitized branch name. -/
theorem computeVersionsLoop_previewVersion_pure (digest : List HashUpdate → String)
    (fs : String → Option DistDir) (s1 s2 : String) (packages : List PackageInfo) :
    Except.map (List.map (fun info => info.previewVersion))
        (computeVersionsLoop digest fs s1 packages) =
      Except.map (List.map (fun info => info.previewVersion))
        (computeVersionsLoop digest fs s2 packages) := by
  induction packages with
  | nil => rfl
  | cons pkg rest ih =>
    rw [computeVersionsLoop, computeVersionsLoop]
    cases hfs : fs (pkg.path ++ ("/dist")) with
    | none => rfl
    | some d =>
      cases h1 : computeVersionsLoop digest fs s1 rest with
      | error e1 =>
        cases h2 : computeVersionsLoop digest fs s2 rest with
        | error e2 =>
          rw [h1, h2] at ih
          simp only [Except.map] at ih ⊢
          exact ih
        | ok l2 =>
          rw [h1, h2] at ih
          simp [Except.map] at ih
      | ok l1 =>
        cases h2 : computeVersionsLoop digest fs s2 rest with
        | error e2 =>
          rw [h1, h2] at ih
          simp [Except.map] at ih
        | ok l2 =>
          rw [h1, h2] at ih
          simp only [Except.map, Except.ok.injEq] at ih ⊢
          simp [ih]

/-! ### Claim theorems -/

/-- Claim C1: the spec requires that a failed branch-listing call, which
makes the planner treat the live-branch set as empty, never causes
deletions. The code does the opposite: under the empty branch set every
branch tag counts as deleted, so a sufficiently old record whose only tag
names the branch main is selected for deletion even though that branch may
well still exist — the branch listing merely failed. -/
theorem cleanupPlan_emptyBranchSet_selects_deletion :
    areAllBranchesDeleted [("branch-main")] [] = true ∧
    cleanupPlan [⟨("1.0.0-preview.abc"), [("branch-main")], 0⟩] [] 1 30 (100 * dayMs) =
      [⟨("1.0.0-preview.abc"), [("branch-main")], 0⟩] :=
  ⟨by decide, by decide⟩

/-- Claim C2: on a publish conflict the code does restore the manifest and
attach the branch tag to the existing version, but the loop body of
publishPackages still reports isNew true, not the claimed created false
(the conflict is swallowed inside publishPackage, so the caller cannot
tell). The second and third conjuncts check the claim's consequence on a
quiescent registry: two sequential calls with the same resolved version
report isNew true then false. -/
theorem processPackage_conflict_reports_created_true :
    processPackage ("pkg") ("pkg0") ("1.0.0") ("1.0.0-preview.abc") ("branch-feature")
        ⟨[], []⟩ (fun reg => ⟨reg.versions ++ [("1.0.0-preview.abc")], reg.distTags⟩)
        ⟨false, false⟩ =
      ⟨("1.0.0"),
        ⟨[("1.0.0-preview.abc")], [(("branch-feature"), ("1.0.0-preview.abc"))]⟩,
        Except.ok ⟨("pkg"), ("pkg0"), ("1.0.0-preview.abc"), ("branch-feature"), true⟩⟩ ∧
    (processPackage ("pkg") ("pkg0") ("1.0.0") ("1.0.0-preview.abc") ("branch-feature")
        ⟨[], []⟩ (fun reg => reg) ⟨false, false⟩).result =
      Except.ok ⟨("pkg"), ("pkg0"), ("1.0.0-preview.abc"), ("branch-feature"), true⟩ ∧
    (processPackage ("pkg") ("pkg0") ("1.0.0") ("1.0.0-preview.abc") ("branch-feature")
        ((processPackage ("pkg") ("pkg0") ("1.0.0") ("1.0.0-preview.abc") ("branch-feature")
            ⟨[], []⟩ (fun reg => reg) ⟨false, false⟩).registry)
        (fun reg => reg) ⟨false, false⟩).result =
      Except.ok ⟨("pkg"), ("pkg0"), ("1.0.0-preview.abc"), ("branch-feature"), false⟩ :=
  ⟨by decide, by decide, by decide⟩

/-- Claim C3: the manifest version field must be restored on every local
exit path of publishPackage. It is restored on the success path and on the
conflict path (third and fourth conjuncts), but on a generic publish error
the restore block re-reads the file it has just overwritten and writes the
same contents back, so the manifest is left holding the preview version,
not the original one (first and second conjuncts). -/
theorem publishPackage_generic_error_leaves_preview_version :
    publishPackage ("1.0.0") ⟨[], []⟩ ⟨true, false⟩ ("1.0.0-preview.abc")
        ("branch-feature") =
      ⟨("1.0.0-preview.abc"), ⟨[], []⟩, Except.error ("Failed to publish")⟩ ∧
    ("1.0.0-preview.abc") ≠ ("1.0.0") ∧
    (publishPackage ("1.0.0") ⟨[], []⟩ ⟨false, false⟩ ("1.0.0-preview.abc")
        ("branch-feature")).manifestVersion = ("1.0.0") ∧
    (publishPackage ("1.0.0") ⟨[("1.0.0-preview.abc")], []⟩ ⟨false, false⟩
        ("1.0.0-preview.abc") ("branch-feature")).manifestVersion = ("1.0.0") :=
  ⟨by decide, by decide, by decide, by decide⟩

/-- Claim C9: a missing dist folder for one package must abort only that
package. In the code computeVersions throws out of its loop, so the whole
run aborts: with the failing package in either position the result is the
thrown error and no sibling record is produced, while the sibling alone
would have been processed successfully (third conjunct). -/
theorem computeVersions_missing_dist_aborts_run :
    computeVersions (fun _ => ("000000000000"))
        (fun p => if p = ("good/dist") then some ⟨("good/dist"), [], fun _ => []⟩ else none)
        [⟨("badpkg"), ("bad"), ("1.0.0")⟩, ⟨("goodpkg"), ("good"), ("1.0.0")⟩] ("main") =
      Except.error ("Package badpkg has no dist folder at bad/dist") ∧
    computeVersions (fun _ => ("000000000000"))
        (fun p => if p = ("good/dist") then some ⟨("good/dist"), [], fun _ => []⟩ else none)
        [⟨("goodpkg"), ("good"), ("1.0.0")⟩, ⟨("badpkg"), ("bad"), ("1.0.0")⟩] ("main") =
      Except.error ("Package badpkg has no dist folder at bad/dist") ∧
    computeVersions (fun _ => ("000000000000"))
        (fun p => if p = ("good/dist") then some ⟨("good/dist"), [], fun _ => []⟩ else none)
        [⟨("goodpkg"), ("good"), ("1.0.0")⟩] ("main") =
      Except.ok [⟨("goodpkg"), ("good"), ("1.0.0"), ("1.0.0-preview.000000000000"),
        ("000000000000"), ("branch-main"), ("good/dist")⟩] :=
  ⟨by decide, by decide, by decide⟩

/-- Claim C5: a record of the history is a deletion candidate exactly when
its age is at least minAgeDays (compared in milliseconds, as the code
does) and every one of its tags starting with the branch marker names a
branch that is live neither as the literal suffix nor with hyphens
restored to slashes; a record with no branch tags is vacuously eligible
once past the age floor, and a younger record is never a candidate. -/
theorem deletionCandidates_mem_iff (previews : List PreviewVersion) (branches : List String)
    (minAgeDays now : Int) (v : PreviewVersion) (hv : v ∈ previews) :
    v ∈ deletionCandidates previews branches minAgeDays now ↔
      (minAgeDays * dayMs ≤ now - v.publishedAt ∧
        ∀ tag ∈ v.tags, branchTagMarker.isPrefixOf tag.toList = true →
          branchNameOfTag tag ∉ branches ∧ restoreSlashes (branchNameOfTag tag) ∉ branches) := by
  unfold deletionCandidates
  rw [List.mem_filter]
  simp [hv, areAllBranchesDeleted_iff]

/-- Witness for C5: an orphaned record (no branch tags) past the age floor
is a candidate. -/
theorem deletionCandidates_mem_iff_witness :
    (⟨("1.0.0-preview.abc"), [("branch-gone")], 0⟩ : PreviewVersion) ∈
      deletionCandidates [⟨("1.0.0-preview.abc"), [("branch-gone")], 0⟩] [("main")] 30
        (40 * dayMs) :=
  (deletionCandidates_mem_iff [⟨("1.0.0-preview.abc"), [("branch-gone")], 0⟩] [("main")] 30
    (40 * dayMs) ⟨("1.0.0-preview.abc"), [("branch-gone")], 0⟩ (by decide)).mpr (by decide)

/-- Claim C4: with the history under the ceiling the decision is empty;
otherwise exactly the minimum of the eligible-candidate count and the
excess over the ceiling plus one is selected, the selection is drawn from
the eligible candidates only, and it is ordered oldest first (ages
nonincreasing). -/
theorem cleanupPlan_quota_policy (previews : List PreviewVersion) (branches : List String)
    (maxVersions minAgeDays now : Int) :
    ((previews.length : Int) < maxVersions →
      cleanupPlan previews branches maxVersions minAgeDays now = []) ∧
    (maxVersions ≤ (previews.length : Int) →
      (cleanupPlan previews branches maxVersions minAgeDays now).length =
        min (deletionCandidates previews branches minAgeDays now).length
          ((previews.length : Int) - maxVersions + 1).toNat ∧
      (∀ v ∈ cleanupPlan previews branches maxVersions minAgeDays now,
        v ∈ deletionCandidates previews branches minAgeDays now) ∧
      List.Sorted (fun a b => now - b.publishedAt ≤ now - a.publishedAt)
        (cleanupPlan previews branches maxVersions minAgeDays now)) := by
  constructor
  · intro h
    unfold cleanupPlan
    rw [if_pos h]
  · intro h
    have hnot : ¬ (previews.length : Int) < maxVersions := not_lt.mpr h
    refine ⟨?_, cleanupPlan_mem_candidates previews branches maxVersions minAgeDays now, ?_⟩
    · unfold cleanupPlan
      rw [if_neg hnot, List.length_take]
      have hlen : (sortByAgeDescending
          (deletionCandidates previews branches minAgeDays now) now).length =
          (deletionCandidates previews branches minAgeDays now).length := by
        unfold sortByAgeDescending
        exact (List.perm_insertionSort _ _).length_eq
      rw [hlen]
      omega
    · unfold cleanupPlan
      rw [if_neg hnot]
      have htot : IsTotal PreviewVersion
          (fun a b => now - b.publishedAt ≤ now - a.publishedAt) :=
        ⟨fun a b => by omega⟩
      have htrans : IsTrans PreviewVersion
          (fun a b => now - b.publishedAt ≤ now - a.publishedAt) :=
        ⟨fun a b c hab hbc => by omega⟩
      have hs := @List.sorted_insertionSort PreviewVersion
        (fun a b => now - b.publishedAt ≤ now - a.publishedAt) (fun a b => inferInstance)
        htot htrans (deletionCandidates previews branches minAgeDays now)
      exact List.Pairwise.sublist (List.take_sublist _ _) hs

/-- Witness for C4: a one-record history under the ceiling yields the
empty decision, and a two-record history at the ceiling with two eligible
candidates deletes exactly two records, the older first. -/
theorem cleanupPlan_quota_policy_witness :
    cleanupPlan [⟨("1.0.0-preview.abc"), [], 0⟩] [] 5 0 (40 * dayMs) = [] ∧
    ((cleanupPlan [⟨("1.0.0-preview.abc"), [], 0⟩, ⟨("1.0.0-preview.def"), [], dayMs⟩] [] 1 0
        (40 * dayMs)).length =
      min (deletionCandidates [⟨("1.0.0-preview.abc"), [], 0⟩,
          ⟨("1.0.0-preview.def"), [], dayMs⟩] [] 0 (40 * dayMs)).length
        (((([⟨("1.0.0-preview.abc"), [], 0⟩, ⟨("1.0.0-preview.def"), [], dayMs⟩] :
            List PreviewVersion).length : Int) - 1 + 1)).toNat ∧
      (∀ v ∈ cleanupPlan [⟨("1.0.0-preview.abc"), [], 0⟩, ⟨("1.0.0-preview.def"), [], dayMs⟩]
          [] 1 0 (40 * dayMs),
        v ∈ deletionCandidates [⟨("1.0.0-preview.abc"), [], 0⟩,
          ⟨("1.0.0-preview.def"), [], dayMs⟩] [] 0 (40 * dayMs)) ∧
      List.Sorted (fun a b => (40 * dayMs) - b.publishedAt ≤ (40 * dayMs) - a.publishedAt)
        (cleanupPlan [⟨("1.0.0-preview.abc"), [], 0⟩, ⟨("1.0.0-preview.def"), [], dayMs⟩]
          [] 1 0 (40 * dayMs))) :=
  ⟨(cleanupPlan_quota_policy [⟨("1.0.0-preview.abc"), [], 0⟩] [] 5 0 (40 * dayMs)).1
      (by decide),
    (cleanupPlan_quota_policy [⟨("1.0.0-preview.abc"), [], 0⟩,
      ⟨("1.0.0-preview.def"), [], dayMs⟩] [] 1 0 (40 * dayMs)).2 (by decide)⟩

/-- Claim C10: only versions containing the preview separator participate
in retention. Inserting a non-preview version anywhere in the registry
listing leaves the parsed preview history unchanged (so it counts toward
nothing), and everything the retention decision selects has a version
containing the preview separator. -/
theorem cleanupPlan_ignores_non_preview_versions (vsA vsB : List String) (w : String)
    (hw : isPreviewVersionStr w = false) (distTags : List (String × String))
    (time : List (String × Int)) (fallbackNow : Int) (branches : List String)
    (maxVersions minAgeDays now : Int) :
    getPreviewVersions (vsA ++ w :: vsB) distTags time fallbackNow =
      getPreviewVersions (vsA ++ vsB) distTags time fallbackNow ∧
    ∀ v ∈ cleanupPlan (getPreviewVersions (vsA ++ w :: vsB) distTags time fallbackNow)
        branches maxVersions minAgeDays now, isPreviewVersionStr v.version = true := by
  constructor
  · unfold getPreviewVersions
    rw [List.filter_append, List.filter_append, List.filter_cons, hw]
    simp
  · intro v hv
    have h1 := cleanupPlan_mem_candidates _ _ _ _ _ v hv
    have h2 := deletionCandidates_subset _ _ _ _ v h1
    unfold getPreviewVersions at h2
    obtain ⟨u, hu, hv2⟩ := List.mem_map.mp h2
    obtain ⟨hmemu, hup⟩ := List.mem_filter.mp hu
    rw [← hv2]
    exact hup

/-- Witness for C10: a stable version in the listing does not change the
parsed history, and the selected deletions are all preview versions. -/
theorem cleanupPlan_ignores_non_preview_versions_witness :
    getPreviewVersions ([("1.0.0-preview.abc")] ++ ("1.0.0") :: []) [] [] 0 =
      getPreviewVersions ([("1.0.0-preview.abc")] ++ []) [] [] 0 ∧
    ∀ v ∈ cleanupPlan (getPreviewVersions ([("1.0.0-preview.abc")] ++ ("1.0.0") :: []) [] [] 0)
        [] 1 0 (40 * dayMs), isPreviewVersionStr v.version = true :=
  cleanupPlan_ignores_non_preview_versions [("1.0.0-preview.abc")] [] ("1.0.0") (by decide)
    [] [] 0 [] 1 0 (40 * dayMs)

/-- Counterexample for C6: in a version string containing a newline, the
first-hyphen strip of the code (a JavaScript regex whose dot cannot cross
a line terminator and whose dollar anchor matches only at the end of
input) does not strip from the first hyphen: the computed base of the
shown version keeps its first hyphen, so the computed preview version
differs from the one the claim predicts. -/
theorem previewVersion_newline_counterexample :
    baseVersionOf ("1-x\n2-y") = ("1-x\n2") ∧
    computeVersions (fun _ => ("cccccccccccc")) (fun _ => some ⟨("p/dist"), [], fun _ => []⟩)
        [⟨("pkg"), ("p"), ("1-x\n2-y")⟩] ("main") =
      Except.ok [⟨("pkg"), ("p"), ("1-x\n2-y"), ("1-x\n2-preview.cccccccccccc"),
        ("cccccccccccc"), ("branch-main"), ("p/dist")⟩] ∧
    ("1-x\n2-preview.cccccccccccc") ≠ ("1") ++ ("-preview.") ++ ("cccccccccccc") :=
  ⟨by decide, by decide, by decide⟩

/-- Claim C6 as amended: for every declared version string containing no
line terminator (newline, carriage return, U+2028, U+2029), the computed
preview version is the base version followed by the preview separator and
the fingerprint, where the base strips a literal trailing in-development
marker and then everything from the first remaining hyphen onward; and the
three base-extraction examples of the claim hold. -/
theorem computeVersions_previewVersion_base_spec (digest : List HashUpdate → String)
    (fs : String → Option DistDir) (packages : List PackageInfo) (branchName : String)
    (infos : List VersionInfo)
    (hrun : computeVersions digest fs packages branchName = Except.ok infos) :
    (∀ info ∈ infos,
      info.currentVersion.toList.all (fun c => !isLineTerminator c) = true →
      info.previewVersion =
        String.mk ((replaceInDevelopmentSuffix info.currentVersion.toList).takeWhile
            (fun c => decide (¬ c = '-')))
          ++ ("-preview.") ++ info.contentHash) ∧
    baseVersionOf ("1.0.0-in-development") = ("1.0.0") ∧
    baseVersionOf ("2.3.0-rc.1") = ("2.3.0") ∧
    baseVersionOf ("0.0.1") = ("0.0.1") := by
  refine ⟨?_, by decide, by decide, by decide⟩
  intro info hmem hclean
  have h := (computeVersionsLoop_ok_mem digest fs (sanitizeBranchName branchName) packages
    infos hrun info hmem).1
  rw [h]
  unfold baseVersionOf
  rw [replaceFirstHyphenToEnd_eq_takeWhile _ (replaceInDevelopmentSuffix_all _ hclean)]

/-- Witness for C6 as amended: a run over one package with a release
candidate suffix produces the preview version predicted by the two-step
strip. -/
theorem computeVersions_previewVersion_base_spec_witness :
    (∀ info ∈ [(⟨("pkg"), ("p"), ("2.3.0-rc.1"), ("2.3.0-preview.cccccccccccc"),
        ("cccccccccccc"), ("branch-main"), ("p/dist")⟩ : VersionInfo)],
      info.currentVersion.toList.all (fun c => !isLineTerminator c) = true →
      info.previewVersion =
        String.mk ((replaceInDevelopmentSuffix info.currentVersion.toList).takeWhile
            (fun c => decide (¬ c = '-')))
          ++ ("-preview.") ++ info.contentHash) ∧
    baseVersionOf ("1.0.0-in-development") = ("1.0.0") ∧
    baseVersionOf ("2.3.0-rc.1") = ("2.3.0") ∧
    baseVersionOf ("0.0.1") = ("0.0.1") :=
  computeVersions_previewVersion_base_spec (fun _ => ("cccccccccccc"))
    (fun _ => some ⟨("p/dist"), [], fun _ => []⟩) [⟨("pkg"), ("p"), ("2.3.0-rc.1")⟩] ("main")
    [⟨("pkg"), ("p"), ("2.3.0-rc.1"), ("2.3.0-preview.cccccccccccc"), ("cccccccccccc"),
      ("branch-main"), ("p/dist")⟩] (by decide)

/-- Claim C7: the preview versions a run computes do not depend on the
branch name (two runs of computeVersions over the same packages and file
system but different branches report identical preview-version lists, and
identical errors), while the branch tag of every computed record is the
branch marker followed by the sanitized branch name, where sanitization
replaces every character outside ASCII letters, digits, underscore and
hyphen with a hyphen. -/
theorem computeVersions_branch_independence (digest : List HashUpdate → String)
    (fs : String → Option DistDir) (packages : List PackageInfo) (b1 b2 : String)
    (hne : b1 ≠ b2) :
    Except.map (List.map (fun info => info.previewVersion))
        (computeVersions digest fs packages b1) =
      Except.map (List.map (fun info => info.previewVersion))
        (computeVersions digest fs packages b2) ∧
    (∀ infos, computeVersions digest fs packages b1 = Except.ok infos →
      ∀ info ∈ infos, info.branchTag = ("branch-") ++ sanitizeBranchName b1) ∧
    sanitizeBranchName b1 =
      String.mk (b1.toList.map (fun c =>
        if ('a' ≤ c ∧ c ≤ 'z') ∨ ('A' ≤ c ∧ c ≤ 'Z') ∨ ('0' ≤ c ∧ c ≤ '9') ∨ c = '_' ∨ c = '-'
        then c else '-')) := by
  refine ⟨?_, ?_, ?_⟩
  · exact computeVersionsLoop_previewVersion_pure digest fs (sanitizeBranchName b1)
      (sanitizeBranchName b2) packages
  · intro infos hrun info hmem
    exact (computeVersionsLoop_ok_mem digest fs (sanitizeBranchName b1) packages infos hrun
      info hmem).2
  · simp [sanitizeBranchName, allowedTagChar]

/-- Witness for C7 at two distinct branch names over the empty package
list. -/
theorem computeVersions_branch_independence_witness :
    Except.map (List.map (fun info => info.previewVersion))
        (computeVersions (fun _ => ("d")) (fun _ => none) [] ("a")) =
      Except.map (List.map (fun info => info.previewVersion))
        (computeVersions (fun _ => ("d")) (fun _ => none) [] ("b")) ∧
    (∀ infos, computeVersions (fun _ => ("d")) (fun _ => none) [] ("a") = Except.ok infos →
      ∀ info ∈ infos, info.branchTag = ("branch-") ++ sanitizeBranchName ("a")) ∧
    sanitizeBranchName ("a") =
      String.mk (("a").toList.map (fun c =>
        if ('a' ≤ c ∧ c ≤ 'z') ∨ ('A' ≤ c ∧ c ≤ 'Z') ∨ ('0' ≤ c ∧ c ≤ '9') ∨ c = '_' ∨ c = '-'
        then c else '-')) :=
  computeVersions_branch_independence (fun _ => ("d")) (fun _ => none) [] ("a") ("b")
    (by decide)

/-- Claim C8: the fingerprint is independent of file-system enumeration
order. Two directory trees with the same root, whose file lists are
permutations of each other and whose contents agree on those files,
produce the same fingerprint for every digest function, because the sorted
update stream fed to the digest is identical. -/
theorem hashDirectory_enumeration_order_invariant (digest : List HashUpdate → String)
    (d1 d2 : DistDir) (hdir : d1.dirPath = d2.dirPath) (hperm : d1.files.Perm d2.files)
    (hcont : ∀ f ∈ d1.files, d1.contents f = d2.contents f) :
    hashDirectory digest d1 = hashDirectory digest d2 := by
  suffices hstream : hashStream d1 = hashStream d2 by
    unfold hashDirectory
    rw [hstream]
  unfold hashStream
  have hsort : d1.files.insertionSort (fun a b => a ≤ b) =
      d2.files.insertionSort (fun a b => a ≤ b) :=
    @List.eq_of_perm_of_sorted String (fun a b => a ≤ b) inferInstance _ _
      (((List.perm_insertionSort _ d1.files).trans hperm).trans
        (List.perm_insertionSort _ d2.files).symm)
      (List.sorted_insertionSort (fun a b => a ≤ b) d1.files)
      (List.sorted_insertionSort (fun a b => a ≤ b) d2.files)
  rw [← hsort]
  exact foldl_append_congr
    (fun file =>
      [HashUpdate.str (relativePathOf d1.dirPath file), HashUpdate.bytes (d1.contents file)])
    (fun file =>
      [HashUpdate.str (relativePathOf d2.dirPath file), HashUpdate.bytes (d2.contents file)])
    (d1.files.insertionSort (fun a b => a ≤ b))
    (fun x hx => by
      have hc := hcont x ((List.perm_insertionSort _ _).mem_iff.mp hx)
      simp only [hdir, hc])
    []

/-- Witness for C8: the same two files enumerated in either order give the
same fingerprint. -/
theorem hashDirectory_enumeration_order_invariant_witness :
    hashDirectory (fun _ => ("0123456789abcdef")) ⟨("p"), [("p/b"), ("p/a")], fun _ => []⟩ =
      hashDirectory (fun _ => ("0123456789abcdef")) ⟨("p"), [("p/a"), ("p/b")], fun _ => []⟩ :=
  hashDirectory_enumeration_order_invariant (fun _ => ("0123456789abcdef"))
    ⟨("p"), [("p/b"), ("p/a")], fun _ => []⟩ ⟨("p"), [("p/a"), ("p/b")], fun _ => []⟩ rfl
    (List.Perm.swap ("p/a") ("p/b") []) (fun _ _ => rfl)

end PublishPreview
